import Mathlib

/-!
Verification of the taito-cli customization pipeline against its
natural-language specification.

The development shallowly embeds the TypeScript sources:
  * `src/lib/config.ts`   — `interpolateString`, `getDefaultValues`
  * `src/lib/prompts.ts`  — `interpolate`, `interpolateVariable`,
                            `promptForVariables`, `promptArray` post-processing
  * `src/lib/render.ts`   — `renderSkill`, `renderWithDefaults`
  * `src/commands/add.ts` — `installSingleSkill` control flow

Resolved values (`string | boolean | string[]`) become the tagged type
`Value`; JavaScript objects used as string-keyed records become association
lists with JavaScript-assignment semantics (`objSet` updates in place,
keeping insertion order, else appends).  The filesystem is modelled as a
list of (relative path, content) pairs in enumeration order.  External
collaborators (the EJS engine, the clack prompt UI) are oracle parameters.
-/

namespace Taito

/-- A resolved variable value: `string | boolean | string[]` in the source. -/
inductive Value where
  | str : String → Value
  | bool : Bool → Value
  | arr : List String → Value
deriving DecidableEq, Repr

/-- `VariableValues = Record<string, string | boolean | string[]>`,
modelled as an association list in insertion order. -/
abbrev VariableValues := List (String × Value)

/-- Property read `values[k]` on a JS object: `none` models `undefined`. -/
def lookupVV : VariableValues → String → Option Value
  | [], _ => none
  | (k', v) :: rest, k => if k' = k then some v else lookupVV rest k

/-- Property write `values[k] = v` on a JS object: updates an existing key
in place (keeping its position), otherwise appends at the end. -/
def objSet : VariableValues → String → Value → VariableValues
  | [], k, v => [(k, v)]
  | (k', v') :: rest, k, v =>
    if k' = k then (k, v) :: rest else (k', v') :: objSet rest k v

/-- JavaScript `String.prototype.trim`, over the character list. -/
def isJsSpace (c : Char) : Bool :=
  c == ' ' || c == '\t' || c == '\n' || c == '\r'

/-- Trim leading and trailing whitespace (JS `.trim()`). -/
def strTrim (s : String) : String :=
  String.mk (((s.data.dropWhile isJsSpace).reverse.dropWhile isJsSpace).reverse)

/-- The string form a value takes when substituted by interpolation:
arrays join with `", "`, otherwise JavaScript `String(value)`
(`true`/`false` for booleans, identity for strings). -/
def valueToString : Value → String
  | .str s => s
  | .bool b => if b then "true" else "false"
  | .arr xs => String.intercalate ", " xs

/-- One left-to-right pass of
`template.replace(/\$\x7b([^}]+)\x7d/g, ...)` from
`interpolate` (src/lib/prompts.ts) / `interpolateString` (src/lib/config.ts):
at each position, if `$\x7b` is followed by a non-empty run of
non-`\x7d` characters and a closing `\x7d`, the token is replaced by the
looked-up value's string form when the trimmed name is bound, and kept
verbatim otherwise; scanning resumes after the token.  The `fuel`
argument only drives structural recursion; it is consumed once per
scanned character, so `fuel ≥ length` makes it inexhaustible. -/
def interpStep (values : VariableValues) (recur : List Char → List Char)
    (c : Char) (cs : List Char) : List Char :=
  if c = '$' then
    match cs with
    | d :: rest =>
      if d = '{' then
        let body := rest.takeWhile (fun ch => ch != '}')
        match rest.dropWhile (fun ch => ch != '}') with
        | _ :: tail =>
          -- the first character dropWhile keeps necessarily equals the
          -- closing brace, so the match succeeds exactly when one exists
          if body.isEmpty then
            c :: recur cs
          else
            match lookupVV values (strTrim (String.mk body)) with
            | some v => (valueToString v).data ++ recur tail
            | none => c :: '{' :: (body ++ '}' :: recur tail)
        | [] => c :: recur cs
      else c :: recur cs
    | [] => c :: recur cs
  else c :: recur cs

/-- The scan itself, structurally recursive on the fuel. -/
def interpolateAux (values : VariableValues) : Nat → List Char → List Char
  | 0, cs => cs
  | _ + 1, [] => []
  | fuel + 1, c :: cs => interpStep values (interpolateAux values fuel) c cs

/-- `interpolate(template, values)` from src/lib/prompts.ts. -/
def interpolate (template : String) (values : VariableValues) : String :=
  String.mk (interpolateAux values template.data.length template.data)

/-- `interpolateString` from src/lib/config.ts — textually identical to
`interpolate` in src/lib/prompts.ts. -/
def interpolateString (template : String) (values : VariableValues) : String :=
  interpolate template values

/-- A `{value, label}` pair of a choice variable. -/
structure ChoiceOption where
  value : String
  label : String
deriving DecidableEq, Repr

/-- The discriminated `Variable` union of src/types.ts. -/
inductive Variable where
  | string (prompt : String) (required : Option Bool)
      (default : Option String) (validate : Option String)
  | choice (prompt : String) (required : Option Bool)
      (default : Option String) (options : List ChoiceOption)
  | boolean (prompt : String) (required : Option Bool) (default : Option Bool)
  | array (prompt : String) (required : Option Bool)
      (default : Option (List String))
deriving DecidableEq, Repr

/-- `SkillMeta` of src/types.ts. -/
structure SkillMeta where
  name : String
  version : Option String := none
  description : Option String := none
deriving DecidableEq, Repr

/-- `SkillConfig` of src/types.ts; `Record<string, Variable>` becomes an
association list in declaration (= `Object.entries`) order. -/
structure SkillConfig where
  meta : SkillMeta
  vars : List (String × Variable)
deriving DecidableEq, Repr

/-- Loop body of `getDefaultValues` (src/lib/config.ts): a preset entry is
taken verbatim; otherwise a declared default is recorded, interpolated
against the values built so far for `string`/`choice`; a variable with no
preset entry and no declared default is skipped. -/
def getDefaultStep (presetValues : Option VariableValues)
    (values : VariableValues) (kv : String × Variable) : VariableValues :=
  match presetValues.bind (fun p => lookupVV p kv.1) with
  | some v => objSet values kv.1 v
  | none =>
    match kv.2 with
    | .string _ _ (some d) _ => objSet values kv.1 (.str (interpolate d values))
    | .choice _ _ (some d) _ => objSet values kv.1 (.str (interpolate d values))
    | .boolean _ _ (some b) => objSet values kv.1 (.bool b)
    | .array _ _ (some xs) => objSet values kv.1 (.arr xs)
    | _ => values

/-- `getDefaultValues(config, presetValues?)` from src/lib/config.ts. -/
def getDefaultValues (config : SkillConfig)
    (presetValues : Option VariableValues) : VariableValues :=
  config.vars.foldl (getDefaultStep presetValues) []

/-- `interpolateVariable(variable, values)` from src/lib/prompts.ts:
interpolates the prompt for every kind, the default for `string` and
`choice`, and the option labels (never the option values) for `choice`. -/
def interpolateVariable (v : Variable) (values : VariableValues) :
    Variable :=
  match v with
  | .string prompt req default validate =>
    .string (interpolate prompt values) req
      (default.map (fun d => interpolate d values)) validate
  | .choice prompt req default options =>
    .choice (interpolate prompt values) req
      (default.map (fun d => interpolate d values))
      (options.map (fun o => ⟨o.value, interpolate o.label values⟩))
  | .boolean prompt req default => .boolean (interpolate prompt values) req default
  | .array prompt req default => .array (interpolate prompt values) req default

/-- State threaded through the `promptForVariables` loop
(src/lib/prompts.ts): the values object being built, the module-level
`sessionVariableCache`, the keys for which the interactive collector has
been invoked (instrumentation for the "never prompts a preset variable"
property), and whether the operator cancelled (in the source,
cancellation calls `process.exit(0)`, so no further iteration runs;
here a cancelled accumulator passes through unchanged). -/
structure PromptAcc where
  values : VariableValues
  cache : VariableValues
  asked : List String
  cancelled : Bool
deriving DecidableEq, Repr

/-- Loop body of `promptForVariables` (src/lib/prompts.ts).  `collect`
is the interactive collector oracle (the clack prompt UI): it receives
the key, the interpolated variable definition and the cached previous
answer, and returns the operator's answer, `none` modelling
cancellation.  A preset entry is recorded verbatim (and cached) without
invoking the collector. -/
def promptStep (collect : String → Variable → Option Value → Option Value)
    (presetValues : Option VariableValues) (acc : PromptAcc)
    (kv : String × Variable) : PromptAcc :=
  if acc.cancelled then acc
  else
    match presetValues.bind (fun p => lookupVV p kv.1) with
    | some v =>
      { acc with
        values := objSet acc.values kv.1 v
        cache := objSet acc.cache kv.1 v }
    | none =>
      let iv := interpolateVariable kv.2 acc.values
      match collect kv.1 iv (lookupVV acc.cache kv.1) with
      | none => { acc with asked := acc.asked ++ [kv.1], cancelled := true }
      | some v =>
        { values := objSet acc.values kv.1 v
          cache := objSet acc.cache kv.1 v
          asked := acc.asked ++ [kv.1]
          cancelled := false }

/-- `promptForVariables(config, presetValues?)` from src/lib/prompts.ts,
parameterised by the collector oracle and the incoming session cache. -/
def promptForVariables (collect : String → Variable → Option Value → Option Value)
    (cache : VariableValues) (config : SkillConfig)
    (presetValues : Option VariableValues) : PromptAcc :=
  config.vars.foldl (promptStep collect presetValues)
    { values := [], cache := cache, asked := [], cancelled := false }

/-- JavaScript `text.split(sep)` for a one-character separator, over the
character list: cuts at every separator; `""` yields `[""]` and a
trailing separator yields a trailing `""`. -/
def splitOnChar (sep : Char) : List Char → List (List Char)
  | [] => [[]]
  | c :: rest =>
    if c = sep then [] :: splitOnChar sep rest
    else
      match splitOnChar sep rest with
      | [] => [[c]]
      | g :: gs => (c :: g) :: gs

/-- The post-processing of the collected text in `promptArray`
(src/lib/prompts.ts): `result.split(',').map(s => s.trim()).filter(s =>
s.length > 0)`. -/
def parseArrayInput (s : String) : List String :=
  (((splitOnChar ',' s.data).map (fun g => strTrim (String.mk g)))).filter
    (fun t => t.length > 0)

/-- Models JavaScript `new RegExp(pattern).test(v)` for the special case
of a pattern containing no regular-expression metacharacters, where the
test is a plain substring search. -/
def regexTestLiteral (pattern v : String) : Bool :=
  (v.data.tails).any (fun t => pattern.data.isPrefixOf t)

/-- A directory tree flattened to (relative path, content) pairs in
enumeration order; paths are relative to the skill bundle root and use
`/` separators. -/
abbrev FS := List (String × String)

/-- JS `a.startsWith(b)` over character lists. -/
def strStartsWith (s pre : String) : Bool :=
  pre.data.isPrefixOf s.data

/-- JS `a.endsWith(b)` over character lists. -/
def strEndsWith (s suf : String) : Bool :=
  suf.data.isSuffixOf s.data

/-- Drop the first `n` characters (JS `slice(n)`). -/
def strDrop (s : String) (n : Nat) : String :=
  String.mk (s.data.drop n)

/-- `relativePath.replace(/\.ejs$/, "")` from src/lib/render.ts: strips
one trailing `.ejs` when present. -/
def stripEjs (p : String) : String :=
  if strEndsWith p ".ejs" then String.mk (p.data.take (p.data.length - 4)) else p

/-- Whether a bundle-root-relative path is collected by
`collectFiles(skillzDir, ".ejs")`: it lies beneath the `.skillz`
customization directory and carries the template suffix. -/
def isTemplatePath (p : String) : Bool :=
  strStartsWith p ".skillz/" && strEndsWith p ".ejs"

/-- The template files of a bundle, in enumeration order. -/
def templateFiles (fs : FS) : FS :=
  fs.filter (fun e => isTemplatePath e.1)

/-- `relative(skillzDir, templatePath)`: strip the leading `.skillz/`
(8 characters). -/
def templateRel (p : String) : String :=
  strDrop p 8

/-- The output path a template file claims, relative to the output root:
its `.skillz`-relative path with the `.ejs` suffix stripped. -/
def templateTarget (p : String) : String :=
  stripEjs (templateRel p)

/-- The claimed output-relative paths (`templateTargets` set in
`renderSkill`, src/lib/render.ts), in template processing order. -/
def templateTargets (fs : FS) : List String :=
  (templateFiles fs).map (fun e => templateTarget e.1)

/-- The writes performed by the template pass of `renderSkill`:
each template file renders through the EJS oracle `render` to its
claimed path. -/
def templateWrites (render : String → String) (fs : FS) :
    List (String × String) :=
  (templateFiles fs).map (fun e => (templateTarget e.1, render e.2))

/-- Whether `collectAllFiles` (src/lib/render.ts) never reaches a path
because the walk skips `node_modules` and hidden directories (a `.`- or
`node_modules`-named component strictly above the file itself). -/
def walkSkips (p : String) : Bool :=
  ((splitOnChar '/' p.data).dropLast).any
    (fun comp => comp.head? == some '.' || comp == "node_modules".data)

/-- The files `collectAllFiles(skillDir)` enumerates, in order. -/
def collectAllFilesM (fs : FS) : FS :=
  fs.filter (fun e => !walkSkips e.1)

/-- The skip conditions of the passthrough-copy loop in `renderSkill`:
paths under `.skillz`, paths claimed by a template, hidden files and the
fixed non-distributable names are not copied. -/
def copySkip (targets : List String) (p : String) : Bool :=
  strStartsWith p ".skillz" || targets.contains p || strStartsWith p "." ||
    p == "package.json" || p == "package-lock.json" || p == "node_modules"

/-- The writes performed by the passthrough-copy pass of `renderSkill`. -/
def copyWrites (fs : FS) : List (String × String) :=
  (collectAllFilesM fs).filter (fun e => !copySkip (templateTargets fs) e.1)

/-- `renderSkill(skillDir, outputDir, values)` (src/lib/render.ts) as the
ordered list of (output-relative path, content) writes: the rendered
templates first, then the copied passthrough files. -/
def renderSkillWrites (render : String → String) (fs : FS) :
    List (String × String) :=
  templateWrites render fs ++ copyWrites fs

/-- `writeFileSync` into the modelled filesystem: overwrite in place or
create the file at the end of the enumeration. -/
def fsWrite : FS → String → String → FS
  | [], p, c => [(p, c)]
  | (q, d) :: rest, p, c =>
    if q = p then (q, c) :: rest else (q, d) :: fsWrite rest p c

/-- `readFileSync` from the modelled filesystem. -/
def fsLookup : FS → String → Option String
  | [], _ => none
  | (q, d) :: rest, p => if q = p then some d else fsLookup rest p

/-- The loop of `renderWithDefaults` (src/lib/render.ts) over the
pre-collected template paths: each template is read from the current
filesystem state, rendered, and written to the bundle root at its
stripped relative path; returns the ordered writes and the final
filesystem. -/
def renderDefaultsGo (render : String → String) :
    List String → FS → List (String × String) × FS
  | [], fs => ([], fs)
  | p :: rest, fs =>
    let content := (fsLookup fs p).getD ""
    let out := templateTarget p
    let rendered := render content
    let next := renderDefaultsGo render rest (fsWrite fs out rendered)
    ((out, rendered) :: next.1, next.2)

/-- `renderWithDefaults(skillDir, values)` (src/lib/render.ts): renders
every `.skillz` template into the bundle's own root; no passthrough copy
pass exists in this variant. -/
def renderWithDefaults (render : String → String) (fs : FS) :
    List (String × String) × FS :=
  renderDefaultsGo render ((templateFiles fs).map (fun e => e.1)) fs

/-- Observable milestones of one `installSingleSkill` run
(src/commands/add.ts), in execution order. -/
inductive InstallEvent where
  | parsedConfig
  | resolvedValues
  | rendered
  | recordedMetadata
deriving DecidableEq, Repr

/-- The outcome `installSingleSkill` hands back to its caller:
normal completion, a propagated error, operator cancellation
(`process.exit(0)` inside `promptForVariables`), or the early return
that skips an already-installed skill. -/
inductive InstallOutcome where
  | success
  | failed (msg : String)
  | cancelled
  | skipped
deriving DecidableEq, Repr

/-- The tail of `installSingleSkill` after values are resolved
(src/commands/add.ts, lines 252–306): the overwrite confirmation for an
existing non-dry-run install (cancel and "no" both skip), then
`renderSkill`/`copyStandardSkill` (whose failure propagates), then —
only outside dry-run — `recordInstalledSkill`. -/
def installFinish (dryRun alreadyExists : Bool)
    (overwriteAnswer : Option Bool)
    (renderResult : Except String (List String))
    (events : List InstallEvent) : List InstallEvent × InstallOutcome :=
  let renderPhase : List InstallEvent × InstallOutcome :=
    match renderResult with
    | .error e => (events, .failed e)
    | .ok _ =>
      if dryRun then (events ++ [.rendered], .success)
      else (events ++ [.rendered, .recordedMetadata], .success)
  if alreadyExists && !dryRun then
    match overwriteAnswer with
    | some true => renderPhase
    | _ => (events, .skipped)
  else renderPhase

/-- `installSingleSkill` (src/commands/add.ts) as an event trace.
Oracles stand for the effectful collaborators: `parseResult` for
`parseSkillConfig` (its thrown `Error` propagates), `presetResolve` for
`parsePresetConfig` followed by `getDefaultValues` when `--config` was
given, `interactiveResolve` for `promptForVariables` (`none` models the
operator cancelling, which exits before anything is rendered or
recorded), `overwriteAnswer` for the overwrite confirmation and
`renderResult` for `renderSkill`/`copyStandardSkill`. -/
def installSingleSkill (customizable dryRun alreadyExists usePresetFile : Bool)
    (parseResult : Except String SkillConfig)
    (presetResolve : Except String VariableValues)
    (interactiveResolve : Option VariableValues)
    (overwriteAnswer : Option Bool)
    (renderResult : Except String (List String)) :
    List InstallEvent × InstallOutcome :=
  if customizable then
    match parseResult with
    | .error e => ([], .failed e)
    | .ok _ =>
      if usePresetFile then
        match presetResolve with
        | .error e => ([.parsedConfig], .failed e)
        | .ok _ =>
          installFinish dryRun alreadyExists overwriteAnswer renderResult
            [.parsedConfig, .resolvedValues]
      else
        match interactiveResolve with
        | none => ([.parsedConfig], .cancelled)
        | some _ =>
          installFinish dryRun alreadyExists overwriteAnswer renderResult
            [.parsedConfig, .resolvedValues]
  else
    installFinish dryRun alreadyExists overwriteAnswer renderResult []

/-- Whether a variable declares a `default` (the only condition under
which `getDefaultValues` records a non-preset value). -/
def varHasDefault : Variable → Bool
  | .string _ _ (some _) _ => true
  | .choice _ _ (some _) _ => true
  | .boolean _ _ (some _) => true
  | .array _ _ (some _) => true
  | _ => false

/-- Rewrite every choice variable's options through `f`, leaving all
other fields and kinds alone (used to show resolution never consults
the options). -/
def mapChoiceOptions (f : List ChoiceOption → List ChoiceOption) :
    Variable → Variable
  | .choice prompt req default options => .choice prompt req default (f options)
  | v => v

/-- `mapChoiceOptions` over a whole schema. -/
def configMapChoiceOptions (f : List ChoiceOption → List ChoiceOption)
    (config : SkillConfig) : SkillConfig :=
  { config with vars := config.vars.map (fun kv => (kv.1, mapChoiceOptions f kv.2)) }

/-- Rewrite every string variable's validate pattern through `f`,
leaving all other fields and kinds alone (used to show preset
resolution never consults the pattern). -/
def mapValidate (f : Option String → Option String) : Variable → Variable
  | .string prompt req default validate => .string prompt req default (f validate)
  | v => v

/-- `mapValidate` over a whole schema. -/
def configMapValidate (f : Option String → Option String)
    (config : SkillConfig) : SkillConfig :=
  { config with vars := config.vars.map (fun kv => (kv.1, mapValidate f kv.2)) }

/-- A schema with one choice variable that declares no default
(counterexample input for the first-option-fallback claim). -/
def c2Config : SkillConfig :=
  ⟨⟨"sample", none, none⟩,
    [("PM", .choice "Pick a package manager" none none
      [⟨"npm", "npm"⟩, ⟨"pnpm", "pnpm"⟩])]⟩

/-- A schema with one choice variable whose only option value is
`"npm"`. -/
def c5Config : SkillConfig :=
  ⟨⟨"sample", none, none⟩,
    [("PM", .choice "Pick a package manager" none none [⟨"npm", "use npm"⟩])]⟩

/-- A preset answering the choice variable of `c5Config` with a value
that matches no declared option. -/
def c5Preset : VariableValues := [("PM", .str "bogus")]

/-- A schema with one string variable carrying a validate pattern. -/
def c6Config : SkillConfig :=
  ⟨⟨"sample", none, none⟩,
    [("NAME", .string "Project name" none none (some "xyz"))]⟩

/-- A preset answering `c6Config`'s variable with a value that does not
match its validate pattern. -/
def c6Preset : VariableValues := [("NAME", .str "abc")]

/-- The end-to-end scenario schema of the spec: a choice variable
followed by a string variable whose default references it. -/
def e2eConfig : SkillConfig :=
  ⟨⟨"sample", none, none⟩,
    [("PACKAGE_MANAGER", .choice "Package manager?" none (some "npm")
        [⟨"npm", "npm"⟩, ⟨"pnpm", "pnpm"⟩]),
     ("LINT_COMMAND", .string "Lint command?" none
        (some "${PACKAGE_MANAGER} run lint") none)]⟩

/-- The end-to-end scenario preset: only the choice variable answered. -/
def e2ePreset : VariableValues := [("PACKAGE_MANAGER", .str "pnpm")]

/-- The value `getDefaultValues` records for a variable that declares a
default, given the environment built so far (characterises the
non-preset branches of `getDefaultStep`; the catch-all is never reached
when `varHasDefault` holds). -/
def defaultValue (v : Variable) (env : VariableValues) : Value :=
  match v with
  | .string _ _ (some d) _ => .str (interpolate d env)
  | .choice _ _ (some d) _ => .str (interpolate d env)
  | .boolean _ _ (some b) => .bool b
  | .array _ _ (some xs) => .arr xs
  | _ => .str ""

/-! ### Association-list lemmas -/

theorem lookupVV_objSet_self (m : VariableValues) (k : String) (v : Value) :
    lookupVV (objSet m k v) k = some v := by
  induction m with
  | nil => simp [objSet, lookupVV]
  | cons e rest ih =>
    obtain ⟨k', v'⟩ := e
    by_cases h : k' = k
    · subst h; simp [objSet, lookupVV]
    · simp [objSet, lookupVV, h, ih]

theorem lookupVV_objSet_ne (m : VariableValues) (k' k : String) (v : Value)
    (h : k' ≠ k) : lookupVV (objSet m k' v) k = lookupVV m k := by
  induction m with
  | nil => simp [objSet, lookupVV, h]
  | cons e rest ih =>
    obtain ⟨k₀, v₀⟩ := e
    by_cases h₀ : k₀ = k'
    · subst h₀; simp [objSet, lookupVV, h]
    · simp [objSet, lookupVV, h₀, ih]

theorem lookupVV_eq_none_of_not_mem (m : VariableValues) (k : String)
    (h : k ∉ m.map Prod.fst) : lookupVV m k = none := by
  induction m with
  | nil => rfl
  | cons e rest ih =>
    obtain ⟨k₀, v₀⟩ := e
    simp only [List.map_cons, List.mem_cons] at h
    push_neg at h
    simp [lookupVV, Ne.symm h.1, ih h.2]

theorem keys_objSet_of_not_mem (m : VariableValues) (k : String) (v : Value)
    (h : k ∉ m.map Prod.fst) :
    (objSet m k v).map Prod.fst = m.map Prod.fst ++ [k] := by
  induction m with
  | nil => simp [objSet]
  | cons e rest ih =>
    obtain ⟨k₀, v₀⟩ := e
    simp only [List.map_cons, List.mem_cons] at h
    push_neg at h
    simp [objSet, Ne.symm h.1, ih h.2]

theorem keys_objSet_cases (m : VariableValues) (k : String) (v : Value) :
    (objSet m k v).map Prod.fst = m.map Prod.fst ∨
    (objSet m k v).map Prod.fst = m.map Prod.fst ++ [k] := by
  induction m with
  | nil => right; simp [objSet]
  | cons e rest ih =>
    obtain ⟨k₀, v₀⟩ := e
    by_cases h : k₀ = k
    · subst h; left; simp [objSet]
    · rcases ih with ih | ih
      · left; simp [objSet, h, ih]
      · right; simp [objSet, h, ih]

/-- A fold whose step either leaves the key list alone or appends the
iterated key produces a key list that is a sublist of the iterated keys
(after the initial ones), hence in iteration order. -/
theorem foldl_keys_sublist {σ : Type} (step : σ → (String × Variable) → σ)
    (keysOf : σ → List String)
    (hstep : ∀ acc kv, keysOf (step acc kv) = keysOf acc ∨
      keysOf (step acc kv) = keysOf acc ++ [kv.1]) :
    ∀ (l : List (String × Variable)) (acc : σ),
      List.Sublist (keysOf (l.foldl step acc)) (keysOf acc ++ l.map Prod.fst) := by
  intro l
  induction l with
  | nil => intro acc; simp
  | cons kv rest ih =>
    intro acc
    have h := ih (step acc kv)
    rcases hstep acc kv with h' | h'
    · rw [h'] at h
      refine List.Sublist.trans h ?_
      simp only [List.map_cons]
      exact (List.Sublist.append_left (List.sublist_cons_self _ _) _)
    · rw [h'] at h
      simpa [List.append_assoc] using h

/-! ### dropWhile and trim lemmas -/

theorem dropWhile_dropWhile (p : Char → Bool) (l : List Char) :
    (l.dropWhile p).dropWhile p = l.dropWhile p := by
  induction l with
  | nil => rfl
  | cons c t ih => by_cases h : p c <;> simp [List.dropWhile_cons, h, ih]

theorem dropWhile_head_false (p : Char → Bool) (l : List Char) (c : Char)
    (t : List Char) (h : l.dropWhile p = c :: t) : p c = false := by
  induction l with
  | nil => simp [List.dropWhile] at h
  | cons a l ih =>
    rw [List.dropWhile_cons] at h
    by_cases ha : p a
    · simp [ha] at h; exact ih h
    · simp [ha] at h
      simpa [← h.1] using eq_false_of_ne_true ha

theorem dropWhile_append_cases (p : Char → Bool) :
    ∀ (a b : List Char), (a ++ b).dropWhile p =
      if (a.dropWhile p).isEmpty then b.dropWhile p else a.dropWhile p ++ b := by
  intro a
  induction a with
  | nil => simp
  | cons c t ih =>
    intro b
    by_cases h : p c <;> simp [List.dropWhile_cons, h, ih b]

theorem trimRight_no_leading (p : Char → Bool) (c : Char) (t : List Char)
    (hc : p c = false) :
    ((((c :: t).reverse.dropWhile p).reverse).dropWhile p) =
      ((c :: t).reverse.dropWhile p).reverse := by
  have hrev : (c :: t).reverse = t.reverse ++ [c] := by simp
  rw [hrev, dropWhile_append_cases]
  by_cases h : (t.reverse.dropWhile p).isEmpty
  · simp [h, List.dropWhile_cons, hc]
  · simp only [h, if_false, List.reverse_append, List.reverse_cons,
      List.reverse_nil, List.nil_append, List.singleton_append]
    rw [List.dropWhile_cons]
    simp [hc]

theorem strTrim_strTrim (s : String) : strTrim (strTrim s) = strTrim s := by
  unfold strTrim
  cases hA : s.data.dropWhile isJsSpace with
  | nil => simp [hA]
  | cons c t =>
    have hc : isJsSpace c = false := dropWhile_head_false _ _ _ _ hA
    simp only [hA]
    rw [trimRight_no_leading _ _ _ hc]
    rw [List.reverse_reverse, dropWhile_dropWhile]

/-! ### getDefaultValues step lemmas -/

theorem getDefaultStep_none_eq (acc : VariableValues) (kv : String × Variable) :
    getDefaultStep none acc kv =
      if varHasDefault kv.2 then objSet acc kv.1 (defaultValue kv.2 acc)
      else acc := by
  obtain ⟨k, v⟩ := kv
  cases v with
  | string prompt req default validate =>
    cases default <;> rfl
  | choice prompt req default options =>
    cases default <;> rfl
  | boolean prompt req default =>
    cases default <;> rfl
  | array prompt req default =>
    cases default <;> rfl

theorem getDefaultStep_preset_mem (preset : VariableValues)
    (acc : VariableValues) (kv : String × Variable) (pv : Value)
    (h : lookupVV preset kv.1 = some pv) :
    getDefaultStep (some preset) acc kv = objSet acc kv.1 pv := by
  unfold getDefaultStep
  simp [h]

theorem getDefaultStep_lookup_ne (p : Option VariableValues)
    (acc : VariableValues) (kv : String × Variable) (k : String)
    (h : kv.1 ≠ k) :
    lookupVV (getDefaultStep p acc kv) k = lookupVV acc k := by
  unfold getDefaultStep
  split
  · exact lookupVV_objSet_ne _ _ _ _ h
  · split
    · exact lookupVV_objSet_ne _ _ _ _ h
    · exact lookupVV_objSet_ne _ _ _ _ h
    · exact lookupVV_objSet_ne _ _ _ _ h
    · exact lookupVV_objSet_ne _ _ _ _ h
    · rfl

theorem foldl_getDefault_lookup_not_mem (p : Option VariableValues)
    (l : List (String × Variable)) (k : String)
    (h : k ∉ l.map Prod.fst) :
    ∀ acc, lookupVV (l.foldl (getDefaultStep p) acc) k = lookupVV acc k := by
  induction l with
  | nil => intro acc; rfl
  | cons kv rest ih =>
    intro acc
    simp only [List.map_cons, List.mem_cons] at h
    push_neg at h
    rw [List.foldl_cons, ih h.2, getDefaultStep_lookup_ne _ _ _ _ (Ne.symm h.1)]

theorem getDefaultStep_keys_cases (p : Option VariableValues)
    (acc : VariableValues) (kv : String × Variable) :
    (getDefaultStep p acc kv).map Prod.fst = acc.map Prod.fst ∨
    (getDefaultStep p acc kv).map Prod.fst = acc.map Prod.fst ++ [kv.1] := by
  unfold getDefaultStep
  split
  · exact keys_objSet_cases _ _ _
  · split
    · exact keys_objSet_cases _ _ _
    · exact keys_objSet_cases _ _ _
    · exact keys_objSet_cases _ _ _
    · exact keys_objSet_cases _ _ _
    · left; rfl

theorem getDefaults_keys_sublist (p : Option VariableValues)
    (l : List (String × Variable)) :
    List.Sublist ((l.foldl (getDefaultStep p) []).map Prod.fst)
      (l.map Prod.fst) := by
  have h := foldl_keys_sublist (getDefaultStep p) (fun m => m.map Prod.fst)
    (getDefaultStep_keys_cases p) l []
  simpa using h

/-- Preset entries for declared variables are recorded verbatim by
`getDefaultValues`, wherever the variable sits in the schema. -/
theorem getDefaults_preset_verbatim (config : SkillConfig)
    (preset : VariableValues) (pre : List (String × Variable)) (k : String)
    (v : Variable) (post : List (String × Variable)) (pv : Value)
    (hvars : config.vars = pre ++ (k, v) :: post)
    (hpost : k ∉ post.map Prod.fst)
    (hk : lookupVV preset k = some pv) :
    lookupVV (getDefaultValues config (some preset)) k = some pv := by
  unfold getDefaultValues
  rw [hvars, List.foldl_append, List.foldl_cons]
  rw [foldl_getDefault_lookup_not_mem _ _ _ hpost]
  rw [getDefaultStep_preset_mem _ _ _ _ hk]
  exact lookupVV_objSet_self _ _ _

/-! ### Claim C9 -/

/-- Claim C9: the text collected for an array variable resolves to the
comma-split, trimmed, empty-free ordered sequence: every produced
segment is non-empty and already trimmed, `"en, es ,  fr"` gives
`["en", "es", "fr"]`, a trailing comma adds nothing, and the empty
input legitimately gives the empty sequence. -/
theorem C9_array_input_parsing :
    (∀ t s, s ∈ parseArrayInput t → s.length > 0 ∧ strTrim s = s)
    ∧ parseArrayInput "en, es ,  fr" = ["en", "es", "fr"]
    ∧ parseArrayInput "en," = ["en"]
    ∧ parseArrayInput "" = [] := by
  refine ⟨?_, by decide, by decide, by decide⟩
  intro t s hs
  unfold parseArrayInput at hs
  rw [List.mem_filter] at hs
  obtain ⟨hmem, hlen⟩ := hs
  refine ⟨by simpa using hlen, ?_⟩
  rw [List.mem_map] at hmem
  obtain ⟨g, _, hg⟩ := hmem
  rw [← hg]
  exact strTrim_strTrim _

/-- Witness for C9 at a concrete input. -/
theorem C9_witness :
    "en" ∈ parseArrayInput " en , es" ∧
    ("en".length > 0 ∧ strTrim "en" = "en") :=
  ⟨by decide, C9_array_input_parsing.1 " en , es" "en" (by decide)⟩

/-! ### Claim C2 -/

theorem keys_getDefaults_none :
    ∀ (l : List (String × Variable)) (acc : VariableValues),
    (∀ kv ∈ l, kv.1 ∉ acc.map Prod.fst) → (l.map Prod.fst).Nodup →
    (l.foldl (getDefaultStep none) acc).map Prod.fst =
      acc.map Prod.fst ++ (l.filter (fun kv => varHasDefault kv.2)).map Prod.fst := by
  intro l
  induction l with
  | nil => intro acc _ _; simp
  | cons kv rest ih =>
    intro acc hacc hnd
    simp only [List.map_cons, List.nodup_cons] at hnd
    rw [List.foldl_cons, getDefaultStep_none_eq]
    by_cases hd : varHasDefault kv.2
    · rw [if_pos hd]
      have hk : kv.1 ∉ acc.map Prod.fst := hacc kv (by simp)
      have hkeys := keys_objSet_of_not_mem acc kv.1 (defaultValue kv.2 acc) hk
      rw [ih _ ?_ hnd.2, hkeys]
      · simp [List.filter_cons, hd, List.append_assoc]
      · intro kv' hkv'
        rw [hkeys]
        simp only [List.mem_append, List.mem_singleton]
        push_neg
        refine ⟨hacc kv' (by simp [hkv']), fun h => hnd.1 ?_⟩
        rw [← h]
        exact List.mem_map_of_mem Prod.fst hkv'
    · rw [if_neg hd]
      rw [ih _ (fun kv' h => hacc kv' (by simp [h])) hnd.2]
      simp [List.filter_cons, hd]

/-- Claim C2 counterexample: a choice variable with no declared default
receives no entry at all from defaults-only resolution — not its first
declared option's value, and not a zero value — so not every schema
variable ends up with a value in the mapping. -/
theorem C2_counterexample :
    getDefaultValues c2Config none = [] ∧
    lookupVV (getDefaultValues c2Config none) "PM" = none := by
  decide

/-- Claim C2 (amended): in defaults-only resolution a variable resolves
to its effective (interpolated against the earlier mapping) default when
one is declared; a variable with no declared default — including a
choice variable — gets no entry in the mapping, so exactly the
variables declaring defaults appear, in schema order. -/
theorem C2_defaults_only_resolution (config : SkillConfig)
    (hnd : (config.vars.map Prod.fst).Nodup) :
    ((getDefaultValues config none).map Prod.fst
      = (config.vars.filter (fun kv => varHasDefault kv.2)).map Prod.fst)
    ∧ (∀ pre k v post, config.vars = pre ++ (k, v) :: post →
        lookupVV (getDefaultValues config none) k =
          (if varHasDefault v then
            some (defaultValue v (pre.foldl (getDefaultStep none) []))
          else none)) := by
  constructor
  · have h := keys_getDefaults_none config.vars [] (by simp) hnd
    simpa [getDefaultValues] using h
  · intro pre k v post hvars
    have hmapeq : config.vars.map Prod.fst
        = pre.map Prod.fst ++ k :: post.map Prod.fst := by simp [hvars]
    rw [hmapeq] at hnd
    rcases List.nodup_append.mp hnd with ⟨h1, h2, hdisj⟩
    have hkpre : k ∉ pre.map Prod.fst := fun h => hdisj h (by simp)
    have hkpost : k ∉ post.map Prod.fst := ((List.nodup_cons.mp h2).1)
    unfold getDefaultValues
    rw [hvars, List.foldl_append, List.foldl_cons]
    rw [foldl_getDefault_lookup_not_mem _ _ _ hkpost]
    rw [getDefaultStep_none_eq]
    by_cases hd : varHasDefault v
    · simp only [hd, if_true]
      exact lookupVV_objSet_self _ _ _
    · simp only [hd, if_false]
      apply lookupVV_eq_none_of_not_mem
      intro hmem
      exact hkpre ((getDefaults_keys_sublist none pre).subset hmem)

/-- Witness for C2 at a concrete schema. -/
theorem C2_witness :
    lookupVV (getDefaultValues c2Config none) "PM" =
      (if varHasDefault (Variable.choice "Pick a package manager" none none
          [⟨"npm", "npm"⟩, ⟨"pnpm", "pnpm"⟩]) then
        some (defaultValue (Variable.choice "Pick a package manager" none none
          [⟨"npm", "npm"⟩, ⟨"pnpm", "pnpm"⟩])
          (List.foldl (getDefaultStep none) [] []))
      else none) :=
  (C2_defaults_only_resolution c2Config (by decide)).2 [] "PM"
    (Variable.choice "Pick a package manager" none none
      [⟨"npm", "npm"⟩, ⟨"pnpm", "pnpm"⟩]) [] rfl

/-! ### Claims C5 and C6 -/

theorem getDefaultStep_some_eq (m : VariableValues) (acc : VariableValues)
    (kv : String × Variable) :
    getDefaultStep (some m) acc kv =
      (match lookupVV m kv.1 with
      | some pv => objSet acc kv.1 pv
      | none => getDefaultStep none acc kv) := by
  unfold getDefaultStep
  cases hl : lookupVV m kv.1 <;> simp [hl]

theorem mapChoiceOptions_fst_invariant (f : List ChoiceOption → List ChoiceOption)
    (v : Variable) : varHasDefault (mapChoiceOptions f v) = varHasDefault v := by
  cases v with
  | choice prompt req d opts => cases d <;> rfl
  | string prompt req d va => rfl
  | boolean prompt req d => rfl
  | array prompt req d => rfl

theorem mapChoiceOptions_default_invariant
    (f : List ChoiceOption → List ChoiceOption) (v : Variable)
    (env : VariableValues) :
    defaultValue (mapChoiceOptions f v) env = defaultValue v env := by
  cases v with
  | choice prompt req d opts => cases d <;> rfl
  | string prompt req d va => rfl
  | boolean prompt req d => rfl
  | array prompt req d => rfl

theorem mapValidate_fst_invariant (f : Option String → Option String)
    (v : Variable) : varHasDefault (mapValidate f v) = varHasDefault v := by
  cases v with
  | string prompt req d va => cases d <;> rfl
  | choice prompt req d opts => rfl
  | boolean prompt req d => rfl
  | array prompt req d => rfl

theorem mapValidate_default_invariant (f : Option String → Option String)
    (v : Variable) (env : VariableValues) :
    defaultValue (mapValidate f v) env = defaultValue v env := by
  cases v with
  | string prompt req d va => cases d <;> rfl
  | choice prompt req d opts => rfl
  | boolean prompt req d => rfl
  | array prompt req d => rfl

theorem getDefaultStep_congr (p : Option VariableValues)
    (acc : VariableValues) (kv kv' : String × Variable)
    (h1 : kv'.1 = kv.1) (h2 : varHasDefault kv'.2 = varHasDefault kv.2)
    (h3 : ∀ env, defaultValue kv'.2 env = defaultValue kv.2 env) :
    getDefaultStep p acc kv' = getDefaultStep p acc kv := by
  cases p with
  | none =>
    rw [getDefaultStep_none_eq, getDefaultStep_none_eq, h1, h2, h3]
  | some m =>
    rw [getDefaultStep_some_eq, getDefaultStep_some_eq, h1]
    cases hl : lookupVV m kv.1 with
    | some pv => rfl
    | none =>
      simp only
      rw [getDefaultStep_none_eq, getDefaultStep_none_eq, h1, h2, h3]

theorem foldl_map_step (p : Option VariableValues)
    (g : String × Variable → String × Variable)
    (hg : ∀ acc kv, getDefaultStep p acc (g kv) = getDefaultStep p acc kv) :
    ∀ (l : List (String × Variable)) (acc : VariableValues),
      (l.map g).foldl (getDefaultStep p) acc = l.foldl (getDefaultStep p) acc := by
  intro l
  induction l with
  | nil => intro acc; rfl
  | cons kv rest ih =>
    intro acc
    simp only [List.map_cons, List.foldl_cons, hg, ih]

/-- Claim C5 counterexample: the preset answer `"bogus"` for a choice
variable whose only option value is `"npm"` is recorded verbatim and
resolution returns successfully — there is no invalid-choice failure,
and the returned mapping violates the claimed invariant. -/
theorem C5_counterexample :
    lookupVV (getDefaultValues c5Config (some c5Preset)) "PM"
      = some (.str "bogus") ∧
    "bogus" ∉ ([⟨"npm", "use npm"⟩] : List ChoiceOption).map ChoiceOption.value := by
  decide

/-- Claim C5 (amended): resolution performs no choice validation at all:
the result never depends on the declared options, and a preset answer
for a choice variable — even one matching no option's value — is
recorded verbatim, with resolution succeeding. -/
theorem C5_no_choice_validation :
    (∀ (f : List ChoiceOption → List ChoiceOption) config preset,
      getDefaultValues (configMapChoiceOptions f config) preset
        = getDefaultValues config preset)
    ∧ (∀ config preset pre k prompt req dflt opts post pv,
        config.vars = pre ++ (k, .choice prompt req dflt opts) :: post →
        k ∉ post.map Prod.fst →
        lookupVV preset k = some pv →
        lookupVV (getDefaultValues config (some preset)) k = some pv) := by
  constructor
  · intro f config preset
    unfold getDefaultValues configMapChoiceOptions
    exact foldl_map_step preset _
      (fun acc kv => getDefaultStep_congr preset acc kv
        (kv.1, mapChoiceOptions f kv.2) rfl
        (mapChoiceOptions_fst_invariant f kv.2)
        (mapChoiceOptions_default_invariant f kv.2)) config.vars []
  · intro config preset pre k prompt req dflt opts post pv hvars hpost hk
    exact getDefaults_preset_verbatim config preset pre k _ post pv hvars hpost hk

/-- Witness for C5 at a concrete schema and preset. -/
theorem C5_witness :
    lookupVV (getDefaultValues c5Config (some c5Preset)) "PM"
      = some (Value.str "bogus") :=
  C5_no_choice_validation.2 c5Config c5Preset [] "PM" "Pick a package manager"
    none none [⟨"npm", "use npm"⟩] [] (Value.str "bogus") rfl
    (by decide) (by decide)

/-- Claim C6 counterexample: the preset value `"abc"` does not match the
validate pattern `"xyz"`, yet it is silently accepted into the mapping —
resolution does not fail and reports nothing. -/
theorem C6_counterexample :
    regexTestLiteral "xyz" "abc" = false ∧
    lookupVV (getDefaultValues c6Config (some c6Preset)) "NAME"
      = some (.str "abc") := by
  decide

/-- Claim C6 (amended): preset resolution never consults the validate
pattern: the result is invariant under arbitrary rewriting of every
string variable's pattern, and a preset value for a string variable
with a pattern is recorded verbatim with resolution succeeding.  (The
pattern is only handed to the interactive text prompt, whose UI
re-prompts on a mismatch.) -/
theorem C6_no_preset_regex_validation :
    (∀ (f : Option String → Option String) config preset,
      getDefaultValues (configMapValidate f config) preset
        = getDefaultValues config preset)
    ∧ (∀ config preset pre k prompt req dflt pat post pv,
        config.vars = pre ++ (k, .string prompt req dflt (some pat)) :: post →
        k ∉ post.map Prod.fst →
        lookupVV preset k = some pv →
        lookupVV (getDefaultValues config (some preset)) k = some pv) := by
  constructor
  · intro f config preset
    unfold getDefaultValues configMapValidate
    exact foldl_map_step preset _
      (fun acc kv => getDefaultStep_congr preset acc kv
        (kv.1, mapValidate f kv.2) rfl
        (mapValidate_fst_invariant f kv.2)
        (mapValidate_default_invariant f kv.2)) config.vars []
  · intro config preset pre k prompt req dflt pat post pv hvars hpost hk
    exact getDefaults_preset_verbatim config preset pre k _ post pv hvars hpost hk

/-- Witness for C6 at a concrete schema and preset. -/
theorem C6_witness :
    lookupVV (getDefaultValues c6Config (some c6Preset)) "NAME"
      = some (Value.str "abc") :=
  C6_no_preset_regex_validation.2 c6Config c6Preset [] "NAME" "Project name"
    none none "xyz" [] (Value.str "abc") rfl (by decide) (by decide)

/-! ### promptForVariables loop lemmas -/

theorem promptStep_of_cancelled
    (collect : String → Variable → Option Value → Option Value)
    (preset : Option VariableValues) (acc : PromptAcc) (kv : String × Variable)
    (h : acc.cancelled = true) : promptStep collect preset acc kv = acc := by
  unfold promptStep
  simp [h]

theorem promptFold_cancelled_mono
    (collect : String → Variable → Option Value → Option Value)
    (preset : Option VariableValues) :
    ∀ (l : List (String × Variable)) (acc : PromptAcc),
      acc.cancelled = true →
      (l.foldl (promptStep collect preset) acc).cancelled = true := by
  intro l
  induction l with
  | nil => intro acc h; exact h
  | cons kv rest ih =>
    intro acc h
    rw [List.foldl_cons, promptStep_of_cancelled _ _ _ _ h]
    exact ih acc h

theorem promptStep_asked_preset
    (collect : String → Variable → Option Value → Option Value)
    (preset : VariableValues) (acc : PromptAcc) (kv : String × Variable)
    (k : String) (hk : (lookupVV preset k).isSome) (hacc : k ∉ acc.asked) :
    k ∉ (promptStep collect (some preset) acc kv).asked := by
  unfold promptStep
  by_cases hc : acc.cancelled
  · simpa [hc] using hacc
  · simp only [hc, if_false, Bool.false_eq_true]
    cases hp : Option.bind (some preset) (fun p => lookupVV p kv.1) with
    | some v => simpa using hacc
    | none =>
      have hne : kv.1 ≠ k := by
        intro h
        rw [h] at hp
        simp only [Option.bind_eq_bind, Option.some_bind] at hp
        rw [hp] at hk
        simp at hk
      cases collect kv.1 (interpolateVariable kv.2 acc.values)
          (lookupVV acc.cache kv.1) with
      | none => simp [hacc, Ne.symm hne]
      | some v => simp [hacc, Ne.symm hne]

theorem promptFold_asked_preset
    (collect : String → Variable → Option Value → Option Value)
    (preset : VariableValues) (k : String)
    (hk : (lookupVV preset k).isSome) :
    ∀ (l : List (String × Variable)) (acc : PromptAcc), k ∉ acc.asked →
      k ∉ (l.foldl (promptStep collect (some preset)) acc).asked := by
  intro l
  induction l with
  | nil => intro acc h; exact h
  | cons kv rest ih =>
    intro acc h
    rw [List.foldl_cons]
    exact ih _ (promptStep_asked_preset collect preset acc kv k hk h)

theorem promptStep_lookup_ne
    (collect : String → Variable → Option Value → Option Value)
    (preset : Option VariableValues) (acc : PromptAcc) (kv : String × Variable)
    (k : String) (h : kv.1 ≠ k) :
    lookupVV (promptStep collect preset acc kv).values k
      = lookupVV acc.values k := by
  unfold promptStep
  by_cases hc : acc.cancelled
  · simp [hc]
  · simp only [hc, if_false, Bool.false_eq_true]
    cases hp : Option.bind preset (fun p => lookupVV p kv.1) with
    | some v => simpa using lookupVV_objSet_ne _ _ _ _ h
    | none =>
      cases collect kv.1 (interpolateVariable kv.2 acc.values)
          (lookupVV acc.cache kv.1) with
      | none => rfl
      | some v => simpa using lookupVV_objSet_ne _ _ _ _ h

theorem promptFold_lookup_not_mem
    (collect : String → Variable → Option Value → Option Value)
    (preset : Option VariableValues) (k : String) :
    ∀ (l : List (String × Variable)) (acc : PromptAcc),
      k ∉ l.map Prod.fst →
      lookupVV (l.foldl (promptStep collect preset) acc).values k
        = lookupVV acc.values k := by
  intro l
  induction l with
  | nil => intro acc _; rfl
  | cons kv rest ih =>
    intro acc h
    simp only [List.map_cons, List.mem_cons] at h
    push_neg at h
    rw [List.foldl_cons, ih _ h.2,
      promptStep_lookup_ne _ _ _ _ _ (Ne.symm h.1)]

theorem promptStep_preset_mem
    (collect : String → Variable → Option Value → Option Value)
    (preset : VariableValues) (acc : PromptAcc) (kv : String × Variable)
    (pv : Value) (hc : acc.cancelled = false)
    (h : lookupVV preset kv.1 = some pv) :
    promptStep collect (some preset) acc kv
      = { acc with values := objSet acc.values kv.1 pv
                   cache := objSet acc.cache kv.1 pv } := by
  unfold promptStep
  simp [hc, h]

theorem promptStep_keys_cases
    (collect : String → Variable → Option Value → Option Value)
    (preset : Option VariableValues) (acc : PromptAcc) (kv : String × Variable) :
    (promptStep collect preset acc kv).values.map Prod.fst
        = acc.values.map Prod.fst ∨
    (promptStep collect preset acc kv).values.map Prod.fst
        = acc.values.map Prod.fst ++ [kv.1] := by
  unfold promptStep
  by_cases hc : acc.cancelled
  · left; simp [hc]
  · simp only [hc, if_false, Bool.false_eq_true]
    cases hp : Option.bind preset (fun p => lookupVV p kv.1) with
    | some v => simpa using keys_objSet_cases acc.values kv.1 v
    | none =>
      cases collect kv.1 (interpolateVariable kv.2 acc.values)
          (lookupVV acc.cache kv.1) with
      | none => left; rfl
      | some v => simpa using keys_objSet_cases acc.values kv.1 v

/-! ### Claim C3 -/

/-- Claim C3: a preset entry for a declared variable short-circuits
resolution: both resolution paths record the preset value verbatim (no
coercion, no interpolation of the value itself), the interactive
collector is never invoked for a preset variable, and the verbatim
value is visible to later variables' default interpolation — the spec's
end-to-end scenario yields `LINT_COMMAND = "pnpm run lint"`. -/
theorem C3_preset_short_circuit :
    (∀ config preset pre k v post pv,
        config.vars = pre ++ (k, v) :: post →
        k ∉ post.map Prod.fst →
        lookupVV preset k = some pv →
        lookupVV (getDefaultValues config (some preset)) k = some pv)
    ∧ (∀ collect cache config preset k,
        (lookupVV preset k).isSome →
        k ∉ (promptForVariables collect cache config (some preset)).asked)
    ∧ (∀ collect cache config preset pre k v post pv,
        config.vars = pre ++ (k, v) :: post →
        k ∉ post.map Prod.fst →
        lookupVV preset k = some pv →
        (promptForVariables collect cache config (some preset)).cancelled = false →
        lookupVV (promptForVariables collect cache config (some preset)).values k
          = some pv)
    ∧ getDefaultValues e2eConfig (some e2ePreset)
        = [("PACKAGE_MANAGER", .str "pnpm"), ("LINT_COMMAND", .str "pnpm run lint")] := by
  refine ⟨?_, ?_, ?_, by decide⟩
  · intro config preset pre k v post pv hvars hpost hk
    exact getDefaults_preset_verbatim config preset pre k v post pv hvars hpost hk
  · intro collect cache config preset k hk
    exact promptFold_asked_preset collect preset k hk config.vars _ (by simp)
  · intro collect cache config preset pre k v post pv hvars hpost hk hnc
    unfold promptForVariables at hnc ⊢
    rw [hvars, List.foldl_append, List.foldl_cons] at hnc ⊢
    set acc₁ := pre.foldl (promptStep collect (some preset))
      { values := [], cache := cache, asked := [], cancelled := false } with hacc₁
    have hc₁ : acc₁.cancelled = false := by
      by_contra hx
      rw [Bool.not_eq_false] at hx
      have := promptFold_cancelled_mono collect (some preset) post
        (promptStep collect (some preset) acc₁ (k, v))
        (by rw [promptStep_of_cancelled _ _ _ _ hx]; exact hx)
      rw [this] at hnc
      exact Bool.true_eq_false.mp hnc
    rw [promptFold_lookup_not_mem _ _ _ _ _ hpost,
      promptStep_preset_mem collect preset acc₁ (k, v) pv hc₁ hk]
    exact lookupVV_objSet_self _ _ _

/-- Witness for C3 at a concrete schema, preset and collector. -/
theorem C3_witness :
    "PACKAGE_MANAGER" ∉ (promptForVariables (fun _ _ _ => some (.str "x")) []
      e2eConfig (some e2ePreset)).asked :=
  C3_preset_short_circuit.2.1 (fun _ _ _ => some (.str "x")) [] e2eConfig
    e2ePreset "PACKAGE_MANAGER" (by decide)

/-! ### Claim C10 -/

/-- Claim C10: the key set of the mapping either resolution path
produces is a sublist (hence subset, in schema order) of the schema's
declared variable names; preset entries whose keys are undeclared are
never recorded and are invisible to lookups. -/
theorem C10_mapping_keys_subset_schema :
    (∀ config preset,
      List.Sublist ((getDefaultValues config preset).map Prod.fst)
        (config.vars.map Prod.fst))
    ∧ (∀ collect cache config preset,
      List.Sublist
        ((promptForVariables collect cache config preset).values.map Prod.fst)
        (config.vars.map Prod.fst))
    ∧ (∀ config preset k, k ∉ config.vars.map Prod.fst →
        lookupVV (getDefaultValues config (some preset)) k = none)
    ∧ (∀ collect cache config preset k, k ∉ config.vars.map Prod.fst →
        lookupVV (promptForVariables collect cache config preset).values k
          = none) := by
  have hprompt : ∀ collect cache config preset,
      List.Sublist
        ((promptForVariables collect cache config preset).values.map Prod.fst)
        (config.vars.map Prod.fst) := by
    intro collect cache config preset
    have h := foldl_keys_sublist (promptStep collect preset)
      (fun acc => acc.values.map Prod.fst)
      (promptStep_keys_cases collect preset) config.vars
      { values := [], cache := cache, asked := [], cancelled := false }
    simpa [promptForVariables] using h
  refine ⟨fun config preset => getDefaults_keys_sublist preset config.vars,
    hprompt, ?_, ?_⟩
  · intro config preset k hk
    apply lookupVV_eq_none_of_not_mem
    intro hmem
    exact hk ((getDefaults_keys_sublist (some preset) config.vars).subset hmem)
  · intro collect cache config preset k hk
    apply lookupVV_eq_none_of_not_mem
    intro hmem
    exact hk ((hprompt collect cache config preset).subset hmem)

/-- Witness for C10 at a concrete schema and preset with an undeclared
key. -/
theorem C10_witness :
    lookupVV (getDefaultValues e2eConfig
      (some [("UNDECLARED", Value.str "zzz")])) "UNDECLARED" = none :=
  C10_mapping_keys_subset_schema.2.2.1 e2eConfig
    [("UNDECLARED", Value.str "zzz")] "UNDECLARED" (by decide)

/-! ### Claim C4 -/

theorem strList_contains_of_mem (l : List String) (a : String) (h : a ∈ l) :
    l.contains a = true := by
  induction l with
  | nil => cases h
  | cons b t ih =>
    rcases List.mem_cons.mp h with h' | h'
    · subst h'; simp [List.contains_cons]
    · simp only [List.contains_cons, ih h', Bool.or_true]

theorem copyWrites_avoid_targets (fs : FS) (P : String)
    (hP : P ∈ templateTargets fs) :
    (copyWrites fs).filter (fun e => e.1 == P) = [] := by
  rw [List.filter_eq_nil_iff]
  intro e he
  unfold copyWrites at he
  rw [List.mem_filter] at he
  obtain ⟨_, hskip⟩ := he
  intro hbeq
  have heP : e.1 = P := by simpa using hbeq
  rw [heP] at hskip
  unfold copySkip at hskip
  rw [strList_contains_of_mem _ _ hP] at hskip
  simp at hskip

/-- Claim C4: when a template claims output-relative path `P` and the
bundle root independently carries a non-template file at `P`, the
passthrough-copy pass never writes `P` — the writes at `P` are exactly
the template-rendered ones, whatever the enumeration order of the
bundle files was. -/
theorem C4_template_output_beats_passthrough (render : String → String)
    (fs : FS) (P c₀ : String) (hT : P ∈ templateTargets fs)
    (hroot : (P, c₀) ∈ fs) :
    (copyWrites fs).filter (fun e => e.1 == P) = []
    ∧ (renderSkillWrites render fs).filter (fun e => e.1 == P)
        = (templateWrites render fs).filter (fun e => e.1 == P) := by
  have h1 := copyWrites_avoid_targets fs P hT
  refine ⟨h1, ?_⟩
  unfold renderSkillWrites
  rw [List.filter_append, h1, List.append_nil]

/-- Witness for C4 at a concrete bundle. -/
theorem C4_witness :
    (copyWrites [(".skillz/SKILL.md.ejs", "T"), ("SKILL.md", "raw")]).filter
        (fun e => e.1 == "SKILL.md") = []
    ∧ (renderSkillWrites (fun s => s)
        [(".skillz/SKILL.md.ejs", "T"), ("SKILL.md", "raw")]).filter
          (fun e => e.1 == "SKILL.md")
      = (templateWrites (fun s => s)
          [(".skillz/SKILL.md.ejs", "T"), ("SKILL.md", "raw")]).filter
            (fun e => e.1 == "SKILL.md") :=
  C4_template_output_beats_passthrough (fun s => s)
    [(".skillz/SKILL.md.ejs", "T"), ("SKILL.md", "raw")] "SKILL.md" "raw"
    (by decide) (by decide)

/-! ### Claim C8 -/

theorem installFinish_cases (dryRun alreadyExists : Bool) (oa : Option Bool)
    (rr : Except String (List String)) (evs : List InstallEvent) :
    (installFinish dryRun alreadyExists oa rr evs).1 = evs
    ∨ ((installFinish dryRun alreadyExists oa rr evs).1 = evs ++ [.rendered]
        ∧ dryRun = true)
    ∨ ((installFinish dryRun alreadyExists oa rr evs).1
          = evs ++ [.rendered, .recordedMetadata]
        ∧ dryRun = false
        ∧ (installFinish dryRun alreadyExists oa rr evs).2 = .success
        ∧ ∃ fl, rr = .ok fl) := by
  unfold installFinish
  cases rr with
  | error e =>
    cases dryRun <;> cases alreadyExists <;>
      rcases oa with _ | b <;> try simp
    all_goals cases b <;> simp
  | ok fl =>
    cases dryRun <;> cases alreadyExists <;>
      rcases oa with _ | b <;> try simp
    all_goals cases b <;> simp

theorem installFinish_ne_cancelled (dryRun alreadyExists : Bool)
    (oa : Option Bool) (rr : Except String (List String))
    (evs : List InstallEvent) :
    (installFinish dryRun alreadyExists oa rr evs).2 ≠ .cancelled := by
  unfold installFinish
  cases rr <;> cases dryRun <;> cases alreadyExists <;>
    rcases oa with _ | b <;> try simp
  all_goals cases b <;> simp

theorem installFinish_error_events (dryRun alreadyExists : Bool)
    (oa : Option Bool) (e : String) (evs : List InstallEvent) :
    (installFinish dryRun alreadyExists oa (.error e) evs).1 = evs := by
  unfold installFinish
  cases dryRun <;> cases alreadyExists <;> rcases oa with _ | b <;> try simp
  all_goals cases b <;> simp

/-- Claim C8: the installed-skill metadata record happens only after a
successful render: whenever the trace contains the metadata event, the
run was not a dry run, the trace ends with render-then-record, and the
outcome is success; a render failure, an operator cancellation (at the
variable prompts or the overwrite confirmation) and dry-run mode all
leave the metadata unrecorded. -/
theorem C8_metadata_only_after_render
    (customizable dryRun alreadyExists usePresetFile : Bool)
    (parseResult : Except String SkillConfig)
    (presetResolve : Except String VariableValues)
    (interactiveResolve : Option VariableValues)
    (overwriteAnswer : Option Bool)
    (renderResult : Except String (List String)) :
    (InstallEvent.recordedMetadata ∈ (installSingleSkill customizable dryRun
        alreadyExists usePresetFile parseResult presetResolve
        interactiveResolve overwriteAnswer renderResult).1 →
      dryRun = false
      ∧ List.IsSuffix [InstallEvent.rendered, InstallEvent.recordedMetadata]
          (installSingleSkill customizable dryRun alreadyExists usePresetFile
            parseResult presetResolve interactiveResolve overwriteAnswer
            renderResult).1
      ∧ (installSingleSkill customizable dryRun alreadyExists usePresetFile
          parseResult presetResolve interactiveResolve overwriteAnswer
          renderResult).2 = .success)
    ∧ (∀ e, renderResult = .error e →
        InstallEvent.recordedMetadata ∉ (installSingleSkill customizable dryRun
          alreadyExists usePresetFile parseResult presetResolve
          interactiveResolve overwriteAnswer renderResult).1)
    ∧ ((installSingleSkill customizable dryRun alreadyExists usePresetFile
          parseResult presetResolve interactiveResolve overwriteAnswer
          renderResult).2 = .cancelled →
        InstallEvent.recordedMetadata ∉ (installSingleSkill customizable dryRun
          alreadyExists usePresetFile parseResult presetResolve
          interactiveResolve overwriteAnswer renderResult).1
        ∧ InstallEvent.rendered ∉ (installSingleSkill customizable dryRun
          alreadyExists usePresetFile parseResult presetResolve
          interactiveResolve overwriteAnswer renderResult).1)
    ∧ (dryRun = true →
        InstallEvent.recordedMetadata ∉ (installSingleSkill customizable dryRun
          alreadyExists usePresetFile parseResult presetResolve
          interactiveResolve overwriteAnswer renderResult).1) := by
  have hmain : ∀ evs : List InstallEvent,
      InstallEvent.recordedMetadata ∉ evs →
      (InstallEvent.recordedMetadata ∈
          (installFinish dryRun alreadyExists overwriteAnswer renderResult evs).1 →
        dryRun = false
        ∧ List.IsSuffix [InstallEvent.rendered, InstallEvent.recordedMetadata]
            (installFinish dryRun alreadyExists overwriteAnswer renderResult evs).1
        ∧ (installFinish dryRun alreadyExists overwriteAnswer renderResult evs).2
            = .success)
      ∧ (∀ e, renderResult = .error e →
          InstallEvent.recordedMetadata ∉
            (installFinish dryRun alreadyExists overwriteAnswer renderResult evs).1)
      ∧ (dryRun = true →
          InstallEvent.recordedMetadata ∉
            (installFinish dryRun alreadyExists overwriteAnswer renderResult evs).1) := by
    intro evs hevs
    refine ⟨?_, ?_, ?_⟩
    · intro hmem
      rcases installFinish_cases dryRun alreadyExists overwriteAnswer
        renderResult evs with h | ⟨h, _⟩ | ⟨h, hdr, hout, _⟩
      · exact absurd (h ▸ hmem) hevs
      · rw [h] at hmem
        rcases List.mem_append.mp hmem with h' | h'
        · exact absurd h' hevs
        · simp at h'
      · refine ⟨hdr, ?_, hout⟩
        rw [h]
        exact List.suffix_append evs _
    · intro e he
      rw [he, installFinish_error_events]
      exact hevs
    · intro hdr
      rcases installFinish_cases dryRun alreadyExists overwriteAnswer
        renderResult evs with h | ⟨h, _⟩ | ⟨h, hdr', _, _⟩
      · rw [h]; exact hevs
      · rw [h]
        intro hmem
        rcases List.mem_append.mp hmem with h' | h'
        · exact hevs h'
        · simp at h'
      · rw [hdr] at hdr'
        exact absurd hdr' (by simp)
  unfold installSingleSkill
  cases customizable with
  | false =>
    have h := hmain [] (by simp)
    refine ⟨h.1, h.2.1, ?_, h.2.2⟩
    intro hc
    exact absurd hc (installFinish_ne_cancelled _ _ _ _ _)
  | true =>
    cases parseResult with
    | error e => simp
    | ok cfg =>
      cases usePresetFile with
      | true =>
        cases presetResolve with
        | error e => simp
        | ok vals =>
          have h := hmain [.parsedConfig, .resolvedValues] (by simp)
          refine ⟨h.1, h.2.1, ?_, h.2.2⟩
          intro hc
          exact absurd hc (installFinish_ne_cancelled _ _ _ _ _)
      | false =>
        cases interactiveResolve with
        | none => simp
        | some vals =>
          have h := hmain [.parsedConfig, .resolvedValues] (by simp)
          refine ⟨h.1, h.2.1, ?_, h.2.2⟩
          intro hc
          exact absurd hc (installFinish_ne_cancelled _ _ _ _ _)

/-- Witness for C8 at a concrete successful preset-driven install. -/
theorem C8_witness :
    (false = false)
    ∧ List.IsSuffix [InstallEvent.rendered, InstallEvent.recordedMetadata]
        (installSingleSkill true false false true (.ok e2eConfig) (.ok [])
          none none (.ok [])).1
    ∧ (installSingleSkill true false false true (.ok e2eConfig) (.ok [])
        none none (.ok [])).2 = .success :=
  (C8_metadata_only_after_render true false false true (.ok e2eConfig)
    (.ok []) none none (.ok [])).1 (by decide)

/-! ### Claim C7 -/

theorem filter_fsWrite (pred : String → Bool) (fs : FS) (p c : String)
    (hp : pred p = false) :
    (fsWrite fs p c).filter (fun e => pred e.1) = fs.filter (fun e => pred e.1) := by
  induction fs with
  | nil => simp [fsWrite, hp]
  | cons e rest ih =>
    obtain ⟨q, d⟩ := e
    by_cases hq : q = p
    · subst hq
      simp [fsWrite, List.filter_cons, hp]
    · simp [fsWrite, hq, List.filter_cons, ih]

theorem fsLookup_fsWrite_ne (fs : FS) (p c q : String) (h : q ≠ p) :
    fsLookup (fsWrite fs p c) q = fsLookup fs q := by
  induction fs with
  | nil => simp [fsWrite, fsLookup, Ne.symm h]
  | cons e rest ih =>
    obtain ⟨r, d⟩ := e
    by_cases hr : r = p
    · subst hr
      simp [fsWrite, fsLookup, Ne.symm h]
    · simp [fsWrite, fsLookup, hr, ih]

theorem fsLookup_of_mem_nodup (fs : FS) (p c : String)
    (hnd : (fs.map Prod.fst).Nodup) (h : (p, c) ∈ fs) :
    fsLookup fs p = some c := by
  induction fs with
  | nil => cases h
  | cons e rest ih =>
    obtain ⟨q, d⟩ := e
    simp only [List.map_cons, List.nodup_cons] at hnd
    rcases List.mem_cons.mp h with h' | h'
    · obtain ⟨hq, hd⟩ := Prod.mk.injEq .. ▸ h'
      simp_all [fsLookup]
    · have hq : q ≠ p := by
        intro hqe
        subst hqe
        exact hnd.1 (List.mem_map_of_mem Prod.fst h')
      simp [fsLookup, hq, ih hnd.2 h']

theorem startsWith_skillz_of_slash (q : String)
    (hq : strStartsWith q ".skillz/" = true) :
    strStartsWith q ".skillz" = true := by
  unfold strStartsWith at hq ⊢
  rw [List.isPrefixOf_iff_prefix] at hq ⊢
  exact List.IsPrefix.trans (by decide) hq

theorem target_ne_template (q p : String)
    (hq : strStartsWith q ".skillz/" = true)
    (hp : strStartsWith p ".skillz" = false) : q ≠ p := by
  intro h
  rw [h] at hq
  rw [startsWith_skillz_of_slash p hq] at hp
  cases hp

theorem isTemplatePath_false_of_root (p : String)
    (hp : strStartsWith p ".skillz" = false) : isTemplatePath p = false := by
  unfold isTemplatePath
  cases hps : strStartsWith p ".skillz/" with
  | false => rfl
  | true => rw [startsWith_skillz_of_slash p hps] at hp; cases hp

/-- One pass of `renderWithDefaults` over pre-collected template paths:
the writes are the templates' targets with their contents rendered from
the initial filesystem, and the `.skillz` subtree (both the template
file set and every file under `.skillz/`) is untouched — provided no
template target points back under `.skillz`. -/
theorem renderDefaultsGo_spec (render : String → String) :
    ∀ (tps : List String) (fs : FS),
      (∀ p ∈ tps, strStartsWith p ".skillz/" = true) →
      (∀ p ∈ tps, strStartsWith (templateTarget p) ".skillz" = false) →
      (renderDefaultsGo render tps fs).1
          = tps.map (fun p => (templateTarget p, render ((fsLookup fs p).getD "")))
      ∧ templateFiles (renderDefaultsGo render tps fs).2 = templateFiles fs
      ∧ (∀ q, strStartsWith q ".skillz/" = true →
          fsLookup (renderDefaultsGo render tps fs).2 q = fsLookup fs q) := by
  intro tps
  induction tps with
  | nil =>
    intro fs _ _
    exact ⟨rfl, rfl, fun q _ => rfl⟩
  | cons p rest ih =>
    intro fs h1 h2
    have hp1 : strStartsWith p ".skillz/" = true := h1 p (by simp)
    have hp2 : strStartsWith (templateTarget p) ".skillz" = false :=
      h2 p (by simp)
    obtain ⟨ihw, ihtf, ihlk⟩ :=
      ih (fsWrite fs (templateTarget p) (render ((fsLookup fs p).getD "")))
        (fun q hq => h1 q (by simp [hq])) (fun q hq => h2 q (by simp [hq]))
    have hpres : ∀ q, strStartsWith q ".skillz/" = true →
        fsLookup (fsWrite fs (templateTarget p)
          (render ((fsLookup fs p).getD ""))) q = fsLookup fs q := by
      intro q hq
      exact fsLookup_fsWrite_ne _ _ _ _ (target_ne_template q _ hq hp2)
    refine ⟨?_, ?_, ?_⟩
    · simp only [renderDefaultsGo, List.map_cons]
      rw [ihw]
      congr 1
      apply List.map_congr_left
      intro q hq
      rw [hpres q (h1 q (by simp [hq]))]
    · simp only [renderDefaultsGo]
      rw [ihtf]
      unfold templateFiles
      exact filter_fsWrite _ _ _ _ (isTemplatePath_false_of_root _ hp2)
    · intro q hq
      simp only [renderDefaultsGo]
      rw [ihlk q hq, hpres q hq]

/-- Claim C7: the defaults-only render variant writes only
template-derived outputs (each template's stripped `.skillz`-relative
path, rendered from the bundle's own template contents) into the bundle
root, and — as long as no template output lands back under `.skillz`,
i.e. the bundle's template sources are unchanged by the run — running
it twice in succession writes byte-identical files both times. -/
theorem C7_defaults_render_idempotent (render : String → String) (fs : FS)
    (hnd : (fs.map Prod.fst).Nodup)
    (hsafe : ∀ e ∈ templateFiles fs,
      strStartsWith (templateTarget e.1) ".skillz" = false) :
    (renderWithDefaults render fs).1
        = (templateFiles fs).map (fun e => (templateTarget e.1, render e.2))
    ∧ (renderWithDefaults render ((renderWithDefaults render fs).2)).1
        = (renderWithDefaults render fs).1 := by
  have htp : ∀ p ∈ (templateFiles fs).map (fun e => e.1),
      strStartsWith p ".skillz/" = true := by
    intro p hp
    rw [List.mem_map] at hp
    obtain ⟨e, he, hpe⟩ := hp
    have : isTemplatePath e.1 = true := (List.mem_filter.mp he).2
    rw [← hpe]
    exact (Bool.and_eq_true .. ▸ this).1
  have htt : ∀ p ∈ (templateFiles fs).map (fun e => e.1),
      strStartsWith (templateTarget p) ".skillz" = false := by
    intro p hp
    rw [List.mem_map] at hp
    obtain ⟨e, he, hpe⟩ := hp
    rw [← hpe]
    exact hsafe e he
  obtain ⟨hw, htf, hlk⟩ := renderDefaultsGo_spec render
    ((templateFiles fs).map (fun e => e.1)) fs htp htt
  have hw' : (renderWithDefaults render fs).1
      = (templateFiles fs).map (fun e => (templateTarget e.1, render e.2)) := by
    unfold renderWithDefaults
    rw [hw, List.map_map]
    apply List.map_congr_left
    intro e he
    have hm : e ∈ fs := (List.mem_filter.mp he).1
    have : fsLookup fs e.1 = some e.2 := by
      obtain ⟨p, c⟩ := e
      exact fsLookup_of_mem_nodup fs p c hnd hm
    simp [Function.comp, this]
  refine ⟨hw', ?_⟩
  have htf' : templateFiles (renderWithDefaults render fs).2 = templateFiles fs := by
    unfold renderWithDefaults
    exact htf
  obtain ⟨hw₂, _, _⟩ := renderDefaultsGo_spec render
    ((templateFiles fs).map (fun e => e.1)) ((renderWithDefaults render fs).2)
    htp htt
  have hrw₂ : (renderWithDefaults render ((renderWithDefaults render fs).2)).1
      = ((templateFiles fs).map (fun e => e.1)).map
          (fun p => (templateTarget p,
            render ((fsLookup (renderWithDefaults render fs).2 p).getD ""))) := by
    unfold renderWithDefaults
    rw [htf]
    exact hw₂
  rw [hrw₂]
  unfold renderWithDefaults at hw ⊢
  rw [hw]
  apply List.map_congr_left
  intro p hp
  rw [show fsLookup (renderDefaultsGo render
      ((templateFiles fs).map (fun e => e.1)) fs).2 p = fsLookup fs p
    from hlk p (htp p hp)]

/-- Witness for C7 at a concrete one-template bundle. -/
theorem C7_witness :
    (renderWithDefaults (fun s => s ++ "!")
        [(".skillz/SKILL.md.ejs", "hello")]).1
      = (templateFiles [(".skillz/SKILL.md.ejs", "hello")]).map
          (fun e => (templateTarget e.1, (fun s => s ++ "!") e.2))
    ∧ (renderWithDefaults (fun s => s ++ "!")
        ((renderWithDefaults (fun s => s ++ "!")
          [(".skillz/SKILL.md.ejs", "hello")]).2)).1
      = (renderWithDefaults (fun s => s ++ "!")
          [(".skillz/SKILL.md.ejs", "hello")]).1 :=
  C7_defaults_render_idempotent (fun s => s ++ "!")
    [(".skillz/SKILL.md.ejs", "hello")] (by decide) (by decide)

/-! ### Claim C1 -/

theorem strMk_data (s : String) : String.mk s.data = s := rfl

theorem strData_append (a b : String) : (a ++ b).data = a.data ++ b.data := rfl

theorem token_data (name rest : String) :
    ("$\x7b" ++ name ++ "\x7d" ++ rest).data
      = '$' :: '{' :: (name.data ++ '}' :: rest.data) := by
  rw [strData_append, strData_append, strData_append]
  have h1 : "$\x7b".data = ['$', '{'] := rfl
  have h2 : "\x7d".data = ['}'] := rfl
  rw [h1, h2]
  simp

theorem length_dropWhile_le_ch (p : Char → Bool) (l : List Char) :
    (l.dropWhile p).length ≤ l.length := by
  induction l with
  | nil => simp
  | cons c t ih =>
    by_cases h : p c <;> simp [List.dropWhile_cons, h] <;> omega

theorem takeWhile_closing (name rest : List Char) (h : '}' ∉ name) :
    (name ++ '}' :: rest).takeWhile (fun ch => ch != '}') = name ∧
    (name ++ '}' :: rest).dropWhile (fun ch => ch != '}') = '}' :: rest := by
  induction name with
  | nil =>
    constructor <;> simp [List.takeWhile_cons, List.dropWhile_cons]
  | cons c t ih =>
    simp only [List.mem_cons] at h
    push_neg at h
    have hc : (c != '}') = true := by
      simp only [bne_iff_ne, ne_eq]
      exact Ne.symm h.1
    obtain ⟨ht, hd⟩ := ih h.2
    constructor
    · simp [List.takeWhile_cons, hc, ht]
    · simp [List.dropWhile_cons, hc, hd]

theorem interpStep_congr (values : VariableValues) (c : Char) (cs : List Char)
    (r1 r2 : List Char → List Char)
    (h : ∀ l : List Char, l.length ≤ cs.length → r1 l = r2 l) :
    interpStep values r1 c cs = interpStep values r2 c cs := by
  unfold interpStep
  have hcs := h cs (Nat.le_refl _)
  by_cases hc : c = '$'
  · subst hc
    simp only [if_pos rfl]
    cases cs with
    | nil => simp [hcs]
    | cons d rest =>
      by_cases hd : d = '{'
      · subst hd
        simp only [if_pos rfl]
        cases hdw : rest.dropWhile (fun ch => ch != '}') with
        | nil => simp [hdw, hcs]
        | cons a tail =>
          have htail : tail.length ≤ ('{' :: rest).length := by
            have hl := length_dropWhile_le_ch (fun ch => ch != '}') rest
            rw [hdw] at hl
            simp only [List.length_cons] at hl ⊢
            omega
          by_cases hb : (rest.takeWhile (fun ch => ch != '}')).isEmpty
          · simp [hdw, hb, hcs]
          · cases hlv : lookupVV values
                (strTrim (String.mk (rest.takeWhile (fun ch => ch != '}')))) with
            | some v => simp [hdw, hb, hlv, h tail htail]
            | none => simp [hdw, hb, hlv, h tail htail]
      · simp [hd, hcs]
  · simp [hc, hcs]

theorem interpolateAux_fuel (values : VariableValues) :
    ∀ (f1 f2 : Nat) (cs : List Char), cs.length ≤ f1 → cs.length ≤ f2 →
      interpolateAux values f1 cs = interpolateAux values f2 cs := by
  intro f1
  induction f1 with
  | zero =>
    intro f2 cs h1 _
    have hcs : cs = [] := by
      cases cs with
      | nil => rfl
      | cons c t => simp at h1
    subst hcs
    cases f2 <;> rfl
  | succ f ihf =>
    intro f2 cs h1 h2
    cases cs with
    | nil => cases f2 <;> rfl
    | cons c cs' =>
      cases f2 with
      | zero => simp at h2
      | succ g =>
        show interpStep values (interpolateAux values f) c cs'
            = interpStep values (interpolateAux values g) c cs'
        apply interpStep_congr
        intro l hl
        simp only [List.length_cons] at h1 h2
        exact ihf g l (by omega) (by omega)

theorem interpolateAux_token (values : VariableValues) (name rest : List Char)
    (f : Nat) (hf : name.length + rest.length + 2 ≤ f + 1)
    (hne : name ≠ []) (hnb : '}' ∉ name) :
    interpolateAux values (f + 1) ('$' :: '{' :: (name ++ '}' :: rest))
      = (match lookupVV values (strTrim (String.mk name)) with
        | some v => (valueToString v).data ++ interpolateAux values rest.length rest
        | none => '$' :: '{' :: (name ++ '}' ::
            interpolateAux values rest.length rest)) := by
  obtain ⟨htw, hdw⟩ := takeWhile_closing name rest hnb
  have hbne : name.isEmpty = false := by
    cases name with
    | nil => exact absurd rfl hne
    | cons c t => rfl
  have hfuel : interpolateAux values f rest = interpolateAux values rest.length rest :=
    interpolateAux_fuel values f rest.length rest (by omega) (Nat.le_refl _)
  show interpStep values (interpolateAux values f) '$' ('{' :: (name ++ '}' :: rest)) = _
  unfold interpStep
  simp only [if_pos rfl, htw, hdw, hbne, Bool.false_eq_true, if_false]
  cases hlv : lookupVV values (strTrim (String.mk name)) with
  | some v => simp [hfuel]
  | none => simp [hfuel]

/-- Claim C1: interpolation replaces each `${`-`}` token whose trimmed
enclosed name is bound in the mapping with the value's string form
(arrays joined with `", "`, booleans via their string form, both inside
`valueToString`), and leaves a token whose trimmed name is unbound
entirely verbatim, delimiters included — an unresolved forward or
backward reference survives rather than raising an error. -/
theorem C1_interpolation_token (values : VariableValues) (name rest : String)
    (hne : name ≠ "") (hnb : '}' ∉ name.data) :
    (∀ v, lookupVV values (strTrim name) = some v →
      interpolate ("$\x7b" ++ name ++ "\x7d" ++ rest) values
        = valueToString v ++ interpolate rest values)
    ∧ (lookupVV values (strTrim name) = none →
      interpolate ("$\x7b" ++ name ++ "\x7d" ++ rest) values
        = "$\x7b" ++ name ++ "\x7d" ++ interpolate rest values) := by
  have hne' : name.data ≠ [] := by
    intro h
    apply hne
    rw [← strMk_data name, h]
  have hlen : ("$\x7b" ++ name ++ "\x7d" ++ rest).data.length
      = (name.data.length + rest.data.length + 2) + 1 := by
    rw [token_data]
    simp
    omega
  have hmk : ∀ v, lookupVV values (strTrim (String.mk name.data)) = v →
      lookupVV values (strTrim name) = v := by
    intro v hv
    rwa [strMk_data] at hv
  constructor
  · intro v hv
    unfold interpolate
    rw [hlen, token_data,
      interpolateAux_token values name.data rest.data _ (by omega) hne' hnb]
    have hv' : lookupVV values (strTrim (String.mk name.data)) = some v := by
      rwa [strMk_data]
    rw [hv']
    rfl
  · intro hv
    unfold interpolate
    rw [hlen, token_data,
      interpolateAux_token values name.data rest.data _ (by omega) hne' hnb]
    have hv' : lookupVV values (strTrim (String.mk name.data)) = none := by
      rwa [strMk_data]
    rw [hv']
    have hr : "$\x7b" ++ name ++ "\x7d"
          ++ String.mk (interpolateAux values rest.data.length rest.data)
        = String.mk ('$' :: '{' :: (name.data ++ '}' ::
            interpolateAux values rest.data.length rest.data)) :=
      (strMk_data _).symm.trans (congrArg String.mk
        (token_data name (String.mk (interpolateAux values rest.data.length rest.data))))
    rw [hr]

/-- Witness for C1 at a concrete mapping, bound and unbound tokens. -/
theorem C1_witness :
    (lookupVV [("B", Value.str "x")] (strTrim "B") = some (Value.str "x")
      ∧ interpolate ("$\x7b" ++ "B" ++ "\x7d" ++ " run") [("B", Value.str "x")]
          = valueToString (Value.str "x")
              ++ interpolate " run" [("B", Value.str "x")])
    ∧ (lookupVV [] (strTrim "B") = none
      ∧ interpolate ("$\x7b" ++ "B" ++ "\x7d" ++ " run") []
          = "$\x7b" ++ "B" ++ "\x7d" ++ interpolate " run" []) :=
  ⟨⟨by decide, (C1_interpolation_token [("B", Value.str "x")] "B" " run"
      (by decide) (by decide)).1 (Value.str "x") (by decide)⟩,
   ⟨by decide, (C1_interpolation_token [] "B" " run"
      (by decide) (by decide)).2 (by decide)⟩⟩

end Taito
